import Mathlib

/-!
Verification of the frame decoder and command encoders in
`src/software/command.c` of the MMCM_Dynamic-Reconfiguration repository.

The decoder `data_cal` is embedded shallowly: every local variable of the C
function becomes a field of `DState`, the body of the `for` loop becomes
`data_cal_step`, and the block that runs when a 16-bit word has just been
assembled (the high-byte branch) becomes `processWord`.  Machine integers are
modelled as `Nat` (unsigned) or `Int` (signed) with explicit reductions
`% 2^w` exactly where the C types wrap.  The telemetry staging array
`i2c_data_temp` has C type `char`, which is signed on the target
(gcc, x86-64 Linux), so its cells are modelled as sign-extended `Int` values.
-/

namespace MMCM

/-- Conversion of an `unsigned char` value to `char` (signed on the target):
values `128..255` wrap to `-128..-1`. -/
def toSChar (b : Nat) : Int :=
  if b % 256 < 128 then ((b % 256 : Nat) : Int) else ((b % 256 : Nat) : Int) - 256

/-- Conversion of a C `int` value to `unsigned int` (reduction mod `2^32`),
as performed by the assignments into the `unsigned int *i2c_data` array. -/
def intToU32 (x : Int) : Nat := (x % 4294967296).toNat

/-- C bitwise `&` of an `int` with a small non-negative mask
(two's-complement semantics on the target). -/
def cint_and (x : Int) (m : Nat) : Int := (((x % 4294967296).toNat &&& m : Nat) : Int)

/-- C `<<` on `int` (gcc semantics: multiplication by a power of two). -/
def cint_shl (x : Int) (k : Nat) : Int := x * 2 ^ k

/-- C `>>` on `int` (gcc semantics: arithmetic shift, i.e. floor division). -/
def cint_shr (x : Int) (k : Nat) : Int := Int.fdiv x (2 ^ k)

/-- The frame terminator word, local variable `tailer = 0x5678` in `data_cal`. -/
def tailer : Nat := 0x5678

/-- The state of one invocation of `data_cal`: all local variables of the C
function together with the caller-owned arrays it mutates (`maps`,
`maps_temp`, `i2c_data`, `*fcounter`).  The 928x960 grids are modelled as
functions from the flat index `row*960+column` to the 16-bit cell value.
`advisory` records whether the overcurrent `printf` at the `ch == 3` branch
has fired (an observable output; the C code has no corresponding variable). -/
structure DState where
  w4 : Nat
  w3 : Nat
  w2 : Nat
  w1 : Nat
  pdata_pre2 : Nat
  pdata_pre1 : Nat
  counter : Nat
  odd : Nat
  row : Nat
  column : Nat
  code : Nat
  tsign : Nat
  ch : Nat
  pdata : Nat
  i2c_data_temp : Fin 8 → Int
  maps : Nat → Nat
  maps_temp : Nat → Nat
  i2c_data : Fin 8 → Nat
  fcounter : Int
  advisory : Bool

/-- The guarded hit-recording loop (command.c lines 338-342):
`if(((column+code)<960)&(row<928)) for (j = 0; j<(code+1); j++)
maps_temp[row*960+column+j] += 1;`.  Cells are `unsigned short`, so the
increment wraps mod `2^16`. -/
def recordHitLoop (row column code : Nat) (mt : Nat → Nat) : Nat → Nat :=
  if column + code < 960 ∧ row < 928 then
    (List.range (code + 1)).foldl
      (fun m j => Function.update m (row * 960 + column + j)
        ((m (row * 960 + column + j) + 1) % 65536)) mt
  else mt

/-- One iteration of the commit loop body (command.c lines 318-321):
`maps[l*960+m] = maps_temp[l*960+m]; maps_temp[l*960+m] = 0;`. -/
def commitStep (q : (Nat → Nat) × (Nat → Nat)) (idx : Nat) : (Nat → Nat) × (Nat → Nat) :=
  (Function.update q.1 idx (q.2 idx), Function.update q.2 idx 0)

/-- The nested commit loops (command.c lines 314-322): for every
`l < 928`, `m < 960`, copy `maps_temp` into `maps` and zero `maps_temp`. -/
def commitMaps (maps mt : Nat → Nat) : (Nat → Nat) × (Nat → Nat) :=
  (List.range 928).foldl
    (fun p l => (List.range 960).foldl (fun q m => commitStep q (l * 960 + m)) p)
    (maps, mt)

/-- The telemetry extraction block (command.c lines 294-309), run at frame
completion.  The staged bytes live in `char i2c_data_temp[8]` (signed), the
outputs in `unsigned int i2c_data[8]`.  The `ch == 3` branch prints when the
just-stored `i2c_data[6]` exceeds 68 (an unsigned comparison); the model
latches this printout in `advisory`. -/
def extractTelemetry (s : DState) : DState :=
  let t := s.i2c_data_temp
  let d0 := Function.update s.i2c_data 0
    (intToU32 (cint_shl (cint_and (t 1) 0x0f) 16 + cint_shl (t 2) 8 + t 3))
  let d1 := Function.update d0 1 (intToU32 (cint_shr (cint_and (t 1) 0x30) 4))
  let d2 := Function.update d1 2
    (intToU32 (cint_shr (cint_shl (t 4) 2 + cint_shr (t 5) 6) 2))
  let ch : Int := cint_shr (cint_and (t 6) 0x0c) 2
  let d7 := Function.update d2 7 (intToU32 ch)
  let chv : Nat := intToU32 (cint_shl (cint_and (t 6) 0x03) 8 + t 7)
  let da : (Fin 8 → Nat) × Bool :=
    if ch = 0 then (Function.update d7 3 chv, s.advisory)
    else if ch = 1 then (Function.update d7 4 chv, s.advisory)
    else if ch = 2 then (Function.update d7 5 chv, s.advisory)
    else if ch = 3 then (Function.update d7 6 chv, s.advisory || decide (68 < chv))
    else (d7, s.advisory)
  { s with i2c_data := da.1, ch := intToU32 ch, advisory := da.2 }

/-- Processing of one just-assembled 16-bit word `pdata` (command.c lines
276-345, starting at `pdata = pdata + (w << 8)` with the combined value
already formed): flip `odd`, shift the two-deep word history, increment the
in-frame word counter, then run the tailer state machine / coordinate decode. -/
def processWord (framadd : Int) (s : DState) (pdata : Nat) : DState :=
  let s1 := { s with pdata := pdata, odd := 1,
                     pdata_pre2 := s.pdata_pre1, pdata_pre1 := pdata,
                     counter := s.counter + 1 }
  if pdata = tailer then
    if s1.tsign = 0 then { s1 with tsign := 1 }
    else
      let s2 := { s1 with counter := 0, tsign := 0, fcounter := s1.fcounter + 1 }
      let s3 := extractTelemetry s2
      if s3.fcounter = framadd then
        let pr := commitMaps s3.maps s3.maps_temp
        { s3 with fcounter := 0, maps := pr.1, maps_temp := pr.2 }
      else s3
  else
    let s2 := { s1 with tsign := 0 }
    if 6 < s2.counter then
      if (s2.pdata_pre2 &&& 0x1000) ≠ 0 then
        { s2 with row := (s2.pdata_pre2 >>> 2) &&& 0x03ff }
      else
        { s2 with column := (s2.pdata_pre2 >>> 2) &&& 0x03ff,
                  code := s2.pdata_pre2 &&& 0x0003,
                  maps_temp := recordHitLoop s2.row ((s2.pdata_pre2 >>> 2) &&& 0x03ff)
                    (s2.pdata_pre2 &&& 0x0003) s2.maps_temp }
    else s2

/-- The telemetry staging loop (command.c lines 353-356):
`for(m = 0; m < 8; m++) if((i+m)<datanum*4) i2c_data_temp[m] = buf[i+m+1];`.
Note the guard checks `i+m` but the access reads index `i+m+1`. -/
def stage (t : Fin 8 → Int) (buf : Nat → Nat) (datanum i : Nat) : Fin 8 → Int :=
  (List.finRange 8).foldl
    (fun t' m => if i + m.val < datanum * 4 then
        Function.update t' m (toSChar (buf (i + m.val + 1)))
      else t') t

/-- The buffer indices read by one execution of the staging loop. -/
def stageReadIndices (datanum i : Nat) : List Nat :=
  (List.range 8).filterMap (fun m => if i + m < datanum * 4 then some (i + m + 1) else none)

/-- One iteration of the main `for` loop of `data_cal` (command.c lines
260-358), processing the byte at index `i` of `databuf`.  A byte read is
reduced mod 256 (`unsigned char`). -/
def data_cal_step (framadd : Int) (buf : Nat → Nat) (datanum : Nat)
    (s : DState) (i : Nat) : DState :=
  let w := buf i % 256
  let s1 := { s with w4 := s.w3, w3 := s.w2, w2 := s.w1, w1 := w }
  if s1.counter ≠ 0 then
    if s1.odd = 1 then { s1 with pdata := w, odd := 0 }
    else processWord framadd s1 ((s1.pdata + (w <<< 8)) % 65536)
  else
    let s2 := { s1 with odd := 1 }
    let s3 := if s2.w1 = 0xaa ∧ s2.w2 = 0xaa ∧ s2.w3 = 0xaa ∧ s2.w4 = 0xaa then
        { s2 with counter := 1 } else s2
    { s3 with i2c_data_temp := stage s3.i2c_data_temp buf datanum i }

/-- The initial decoder state of one `data_cal` invocation (command.c lines
239-258): every local variable is zero-initialised; the caller-owned arrays
and frame counter are taken as arguments.  (`char i2c_data_temp[8]` is
actually uninitialised in the C code; it is staged before any use in every
run that completes a frame, and the model fixes it to zero.) -/
def initState (maps maps_temp : Nat → Nat) (i2c_data : Fin 8 → Nat)
    (fcounter : Int) : DState :=
  { w4 := 0, w3 := 0, w2 := 0, w1 := 0, pdata_pre2 := 0, pdata_pre1 := 0,
    counter := 0, odd := 0, row := 0, column := 0, code := 0, tsign := 0,
    ch := 0, pdata := 0, i2c_data_temp := fun _ => 0, maps := maps,
    maps_temp := maps_temp, i2c_data := i2c_data, fcounter := fcounter,
    advisory := false }

/-- The whole `data_cal` function: fold the loop body over the 80000
(`datanum*4` with `datanum = 20000`) byte indices. -/
def data_cal (databuf : Nat → Nat) (maps maps_temp : Nat → Nat)
    (i2c_data : Fin 8 → Nat) (fcounter : Int) (framadd : Int) : DState :=
  (List.range (20000 * 4)).foldl (data_cal_step framadd databuf 20000)
    (initState maps maps_temp i2c_data fcounter)

/-- Iterating `processWord` over a list of assembled words (the effect of the
byte loop on a run that stays in-frame). -/
def runWords (framadd : Int) (s : DState) (ws : List Nat) : DState :=
  ws.foldl (processWord framadd) s

/-- A `DState` with the advisory output blanked, used to state that the
overcurrent advisory does not feed back into decoding. -/
def eraseAdv (s : DState) : DState := { s with advisory := false }

/-- Byte swap of a 32-bit value: `htonl` on the little-endian target host. -/
def htonl (x : Nat) : Nat :=
  ((x % 256) <<< 24) ||| ((x / 256 % 256) <<< 16) |||
    ((x / 65536 % 256) <<< 8) ||| (x / 16777216 % 256)

/-- The helper `conv32network_endian` (command.c lines 48-55) applied to an
output buffer: every 32-bit word is converted to network byte order. -/
def conv32network_endian (l : List Nat) : List Nat := l.map htonl

/-- The encoder `cmd_read_datafifo` (command.c lines 166-180) on the
non-NULL-buffer path: the pair of the two command words written to the
buffer (after byte-order conversion) and the returned byte count. -/
def cmd_read_datafifo (n : Nat) : List Nat × Nat :=
  let buf0 := (0xffff0000 &&& (0x001a <<< 16)) ||| (0x0000ffff &&& (n >>> 16))
  let buf1 := (0xffff0000 &&& (0x0019 <<< 16)) ||| (0x0000ffff &&& n)
  (conv32network_endian [buf0, buf1], 2 * 4)


/-! ### Pointwise characterisations of the array-mutating loops -/

/-- Value of a fold of wrap-around increments over `base+0 .. base+(n-1)`. -/
theorem foldl_incr_apply (base n : Nat) (mt : Nat → Nat) (idx : Nat) :
    ((List.range n).foldl
      (fun m j => Function.update m (base + j) ((m (base + j) + 1) % 65536)) mt) idx
    = if base ≤ idx ∧ idx < base + n then (mt idx + 1) % 65536 else mt idx := by
  induction n with
  | zero =>
    rw [List.range_zero]
    simp only [List.foldl_nil]
    rw [if_neg (by omega)]
  | succ n ih =>
    rw [show List.range (n + 1) = List.range n ++ [n] from List.range_succ n,
        List.foldl_append]
    simp only [List.foldl_cons, List.foldl_nil]
    by_cases h : idx = base + n
    · subst h
      simp only [Function.update_same, ih]
      have hA : ¬(base ≤ base + n ∧ base + n < base + n) := by clear ih; omega
      have hB : base ≤ base + n ∧ base + n < base + (n + 1) := by clear ih; omega
      rw [if_neg hA, if_pos hB]
    · rw [Function.update_noteq h]
      simp only [ih]
      by_cases hc : base ≤ idx ∧ idx < base + n
      · have hB : base ≤ idx ∧ idx < base + (n + 1) := ⟨hc.1, by clear ih; omega⟩
        rw [if_pos hc, if_pos hB]
      · have hB : ¬(base ≤ idx ∧ idx < base + (n + 1)) := by clear ih; omega
        rw [if_neg hc, if_neg hB]

/-- Cell-level reading of `recordHitLoop`: inside bounds, exactly the cells
`row*960+column .. row*960+column+code` gain one count (mod `2^16`); every
other cell, and everything when the bounds check fails, is unchanged. -/
theorem recordHitLoop_apply (row column code : Nat) (mt : Nat → Nat) (idx : Nat) :
    recordHitLoop row column code mt idx =
      if (column + code < 960 ∧ row < 928) ∧
         row * 960 + column ≤ idx ∧ idx < row * 960 + column + (code + 1)
      then (mt idx + 1) % 65536 else mt idx := by
  unfold recordHitLoop
  by_cases h : column + code < 960 ∧ row < 928
  · rw [if_pos h, foldl_incr_apply (row * 960 + column) (code + 1) mt idx]
    by_cases hc : row * 960 + column ≤ idx ∧ idx < row * 960 + column + (code + 1)
    · rw [if_pos hc, if_pos ⟨h, hc⟩]
    · rw [if_neg hc, if_neg (fun hh => hc hh.2)]
  · rw [if_neg h, if_neg (fun hh => h hh.1)]

/-- Value of a fold of `commitStep` over the indices `0 .. n-1`. -/
theorem foldl_commitStep_apply (n : Nat) (p : (Nat → Nat) × (Nat → Nat)) (idx : Nat) :
    (((List.range n).foldl commitStep p).1 idx = if idx < n then p.2 idx else p.1 idx)
    ∧ (((List.range n).foldl commitStep p).2 idx = if idx < n then 0 else p.2 idx) := by
  induction n with
  | zero =>
    rw [List.range_zero]
    simp only [List.foldl_nil]
    rw [if_neg (by omega), if_neg (by omega)]
    exact ⟨rfl, rfl⟩
  | succ n ih =>
    rw [show List.range (n + 1) = List.range n ++ [n] from List.range_succ n,
        List.foldl_append]
    simp only [List.foldl_cons, List.foldl_nil]
    obtain ⟨ih1, ih2⟩ := ih
    by_cases h : idx = n
    · subst h
      refine ⟨?_, ?_⟩
      · show Function.update _ idx _ idx = _
        rw [Function.update_same, ih2]
        have hA : ¬idx < idx := by clear ih1 ih2; omega
        have hB : idx < idx + 1 := by clear ih1 ih2; omega
        rw [if_neg hA, if_pos hB]
      · show Function.update _ idx _ idx = _
        rw [Function.update_same]
        have hB : idx < idx + 1 := by clear ih1 ih2; omega
        rw [if_pos hB]
    · refine ⟨?_, ?_⟩
      · show Function.update _ n _ idx = _
        rw [Function.update_noteq h, ih1]
        by_cases hc : idx < n
        · have hB : idx < n + 1 := by clear ih1 ih2; omega
          rw [if_pos hc, if_pos hB]
        · have hB : ¬idx < n + 1 := by clear ih1 ih2; omega
          rw [if_neg hc, if_neg hB]
      · show Function.update _ n _ idx = _
        rw [Function.update_noteq h, ih2]
        by_cases hc : idx < n
        · have hB : idx < n + 1 := by clear ih1 ih2; omega
          rw [if_pos hc, if_pos hB]
        · have hB : ¬idx < n + 1 := by clear ih1 ih2; omega
          rw [if_neg hc, if_neg hB]

/-- The nested `l,m` commit loops visit the flat indices `0 .. k*960-1` in
order, so they equal one flat fold of `commitStep`. -/
theorem rows_flatten (k : Nat) (p0 : (Nat → Nat) × (Nat → Nat)) :
    (List.range k).foldl
      (fun p l => (List.range 960).foldl (fun q m => commitStep q (l * 960 + m)) p) p0
    = (List.range (k * 960)).foldl commitStep p0 := by
  induction k with
  | zero => simp
  | succ k ih =>
    rw [show List.range (k + 1) = List.range k ++ [k] from List.range_succ k,
        List.foldl_append, ih]
    simp only [List.foldl_cons, List.foldl_nil]
    have h1 : (k + 1) * 960 = k * 960 + 960 := by ring
    rw [h1, List.range_add, List.foldl_append, List.foldl_map]

/-- Cell-level reading of `commitMaps`: on the 928x960 grid (flat indices
below `890880 = 928*960`) `maps` receives the old `maps_temp` value and
`maps_temp` becomes 0; outside the grid nothing changes. -/
theorem commitMaps_apply (maps mt : Nat → Nat) (idx : Nat) :
    ((commitMaps maps mt).1 idx = if idx < 890880 then mt idx else maps idx)
    ∧ ((commitMaps maps mt).2 idx = if idx < 890880 then 0 else mt idx) := by
  unfold commitMaps
  rw [rows_flatten]
  have h : (928 : Nat) * 960 = 890880 := by norm_num
  rw [h]
  exact foldl_commitStep_apply 890880 (maps, mt) idx

/-- Disjoint bitwise or is addition: `(a <<< k) ||| b = a * 2^k + b` for
`b < 2^k`. -/
theorem lor_low (a b k : Nat) (h : b < 2 ^ k) : (a <<< k) ||| b = a * 2 ^ k + b := by
  rw [Nat.shiftLeft_eq, mul_comm]
  exact (Nat.mul_add_lt_is_or h a).symm

/-! ### Branch equations for `processWord` -/

/-- A terminator word seen with no terminator pending only marks
tailer-pending (plus the unconditional word-assembly effects). -/
theorem processWord_tailer_first (f : Int) (s : DState) (h : s.tsign = 0) :
    processWord f s tailer =
      { s with pdata := tailer, odd := 1, pdata_pre2 := s.pdata_pre1,
               pdata_pre1 := tailer, counter := s.counter + 1, tsign := 1 } := by
  unfold processWord
  rw [if_pos (rfl : tailer = tailer)]
  dsimp only
  rw [if_pos h]

/-- A terminator word seen with a terminator pending, when the incremented
frame counter misses the commit threshold: the frame ends and telemetry is
extracted, with no commit. -/
theorem processWord_tailer_second_nocommit (f : Int) (s : DState)
    (h : s.tsign ≠ 0) (hf : s.fcounter + 1 ≠ f) :
    processWord f s tailer =
      extractTelemetry
        { s with pdata := tailer, odd := 1, pdata_pre2 := s.pdata_pre1,
                 pdata_pre1 := tailer, counter := 0, tsign := 0,
                 fcounter := s.fcounter + 1 } := by
  unfold processWord
  rw [if_pos (rfl : tailer = tailer)]
  dsimp only
  rw [if_neg h]
  dsimp only [extractTelemetry]
  rw [if_neg hf]

/-- A terminator word seen with a terminator pending, when the incremented
frame counter hits the commit threshold: the frame ends, telemetry is
extracted, `maps`/`maps_temp` are committed and the frame counter resets. -/
theorem processWord_tailer_second_commit (f : Int) (s : DState)
    (h : s.tsign ≠ 0) (hf : s.fcounter + 1 = f) :
    processWord f s tailer =
      { extractTelemetry
          { s with pdata := tailer, odd := 1, pdata_pre2 := s.pdata_pre1,
                   pdata_pre1 := tailer, counter := 0, tsign := 0,
                   fcounter := s.fcounter + 1 } with
        fcounter := 0,
        maps := (commitMaps s.maps s.maps_temp).1,
        maps_temp := (commitMaps s.maps s.maps_temp).2 } := by
  unfold processWord
  rw [if_pos (rfl : tailer = tailer)]
  dsimp only
  rw [if_neg h]
  dsimp only [extractTelemetry]
  rw [if_pos hf]

/-- A non-terminator word completed before the in-frame word counter exceeds
6 only clears tailer-pending (plus the word-assembly effects). -/
theorem processWord_nodecode (f : Int) (s : DState) (w : Nat)
    (hw : w ≠ tailer) (hc : ¬6 < s.counter + 1) :
    processWord f s w =
      { s with pdata := w, odd := 1, pdata_pre2 := s.pdata_pre1,
               pdata_pre1 := w, counter := s.counter + 1, tsign := 0 } := by
  unfold processWord
  rw [if_neg hw]
  dsimp only
  rw [if_neg hc]

/-- A non-terminator word completed past the skip threshold decodes the
previous word as a row word when its bit `0x1000` is set. -/
theorem processWord_decode_row (f : Int) (s : DState) (w : Nat)
    (hw : w ≠ tailer) (hc : 6 < s.counter + 1)
    (hr : s.pdata_pre1 &&& 0x1000 ≠ 0) :
    processWord f s w =
      { s with pdata := w, odd := 1, pdata_pre2 := s.pdata_pre1,
               pdata_pre1 := w, counter := s.counter + 1, tsign := 0,
               row := (s.pdata_pre1 >>> 2) &&& 0x03ff } := by
  unfold processWord
  rw [if_neg hw]
  dsimp only
  rw [if_pos hc, if_pos hr]

/-- A non-terminator word completed past the skip threshold decodes the
previous word as a column+code word when its bit `0x1000` is clear, and
attempts the bounds-checked hit record on the current pending row. -/
theorem processWord_decode_col (f : Int) (s : DState) (w : Nat)
    (hw : w ≠ tailer) (hc : 6 < s.counter + 1)
    (hr : ¬s.pdata_pre1 &&& 0x1000 ≠ 0) :
    processWord f s w =
      { s with pdata := w, odd := 1, pdata_pre2 := s.pdata_pre1,
               pdata_pre1 := w, counter := s.counter + 1, tsign := 0,
               column := (s.pdata_pre1 >>> 2) &&& 0x03ff,
               code := s.pdata_pre1 &&& 0x0003,
               maps_temp := recordHitLoop s.row ((s.pdata_pre1 >>> 2) &&& 0x03ff)
                 (s.pdata_pre1 &&& 0x0003) s.maps_temp } := by
  unfold processWord
  rw [if_neg hw]
  dsimp only
  rw [if_pos hc, if_neg hr]


/-- The zero-initialised decoder state with all-zero caller arrays. -/
def zState : DState := initState (fun _ => 0) (fun _ => 0) (fun _ => 0) 0

/-- Every completed word, terminator or not, becomes `pdata_pre1`. -/
theorem processWord_pdata_pre1 (f : Int) (s : DState) (w : Nat) :
    (processWord f s w).pdata_pre1 = w := by
  unfold processWord
  dsimp only
  split_ifs <;> rfl

/-- Every completed word pushes the old `pdata_pre1` into `pdata_pre2`. -/
theorem processWord_pdata_pre2 (f : Int) (s : DState) (w : Nat) :
    (processWord f s w).pdata_pre2 = s.pdata_pre1 := by
  unfold processWord
  dsimp only
  split_ifs <;> rfl

/-- Every completed word flips the phase flag back to `odd = 1`. -/
theorem processWord_odd (f : Int) (s : DState) (w : Nat) :
    (processWord f s w).odd = 1 := by
  unfold processWord
  dsimp only
  split_ifs <;> rfl

/-- The word counter is incremented by every completed word except a
frame-ending terminator (which resets it after the increment). -/
theorem processWord_counter (f : Int) (s : DState) (w : Nat)
    (h : ¬(w = tailer ∧ s.tsign ≠ 0)) :
    (processWord f s w).counter = s.counter + 1 := by
  by_cases hw : w = tailer
  · subst hw
    by_cases ht : s.tsign = 0
    · rw [processWord_tailer_first f s ht]
    · exact absurd ⟨rfl, ht⟩ h
  · unfold processWord
    rw [if_neg hw]
    dsimp only
    split_ifs <;> rfl

/-- A non-terminator word leaves everything except the word-assembly state
and the decoded coordinates untouched. -/
theorem processWord_not_tailer_invariants (f : Int) (s : DState) (w : Nat)
    (hw : w ≠ tailer) :
    (processWord f s w).tsign = 0 ∧ (processWord f s w).counter = s.counter + 1 ∧
    (processWord f s w).fcounter = s.fcounter ∧ (processWord f s w).maps = s.maps ∧
    (processWord f s w).i2c_data = s.i2c_data ∧
    (processWord f s w).advisory = s.advisory := by
  by_cases hc : 6 < s.counter + 1
  · by_cases hr : s.pdata_pre1 &&& 0x1000 ≠ 0
    · rw [processWord_decode_row f s w hw hc hr]
      exact ⟨rfl, rfl, rfl, rfl, rfl, rfl⟩
    · rw [processWord_decode_col f s w hw hc hr]
      exact ⟨rfl, rfl, rfl, rfl, rfl, rfl⟩
  · rw [processWord_nodecode f s w hw hc]
    exact ⟨rfl, rfl, rfl, rfl, rfl, rfl⟩


/-! ### Claim theorems -/

/-- C1: in the frame state machine of `data_cal`, a single assembled
terminator word (0x5678) followed by a non-terminator word does not end the
frame — the provisional tailer-pending mark is cancelled, the word counter
keeps counting and the persistent frame counter is untouched — while two
consecutive terminator words end the frame exactly once: tailer-pending is
cleared, the in-frame word counter resets to 0 (sync-seeking), and the frame
counter is incremented by exactly 1.  The hypothesis `s.fcounter + 1 ≠ f`
sets aside the commit-threshold behaviour, which is the subject of C4. -/
theorem tailer_double_confirmation (f : Int) (s : DState) (h0 : s.tsign = 0)
    (hin : s.counter ≠ 0) (w : Nat) (hw : w ≠ tailer) (hf : s.fcounter + 1 ≠ f) :
    ((processWord f s tailer).tsign = 1 ∧
     (processWord f s tailer).counter = s.counter + 1 ∧
     (processWord f s tailer).fcounter = s.fcounter) ∧
    ((processWord f (processWord f s tailer) w).tsign = 0 ∧
     (processWord f (processWord f s tailer) w).counter = s.counter + 2 ∧
     (processWord f (processWord f s tailer) w).fcounter = s.fcounter) ∧
    ((processWord f (processWord f s tailer) tailer).tsign = 0 ∧
     (processWord f (processWord f s tailer) tailer).counter = 0 ∧
     (processWord f (processWord f s tailer) tailer).fcounter = s.fcounter + 1) := by
  have e1 := processWord_tailer_first f s h0
  refine ⟨?_, ?_, ?_⟩
  · rw [e1]
    exact ⟨rfl, rfl, rfl⟩
  · rw [e1]
    obtain ⟨ht, hc, hfc, -, -, -⟩ :=
      processWord_not_tailer_invariants f
        { s with pdata := tailer, odd := 1, pdata_pre2 := s.pdata_pre1,
                 pdata_pre1 := tailer, counter := s.counter + 1, tsign := 1 } w hw
    refine ⟨ht, ?_, hfc⟩
    rw [hc]
  · rw [e1]
    rw [processWord_tailer_second_nocommit f
      { s with pdata := tailer, odd := 1, pdata_pre2 := s.pdata_pre1,
               pdata_pre1 := tailer, counter := s.counter + 1, tsign := 1 }
      (fun hh => Nat.one_ne_zero hh) hf]
    exact ⟨rfl, rfl, rfl⟩

/-- Witness for C1 at a concrete in-frame state. -/
theorem tailer_double_confirmation_witness :
    (processWord 5 { zState with counter := 1 } tailer).tsign = 1 ∧
    (processWord 5 { zState with counter := 1 } tailer).counter = 2 ∧
    (processWord 5 { zState with counter := 1 } tailer).fcounter = 0 :=
  (tailer_double_confirmation 5 { zState with counter := 1 } (by decide)
    (by decide) 0 (by decide) (by decide)).1

/-- C3: the bounds-checked hit record.  When `row < 928` and
`column + code < 960`, exactly the `code+1` contiguous cells
`temp[row][column..column+code]` are each incremented by one (as 16-bit
cells, i.e. mod `2^16`) and every other cell of `temp` is unchanged; when
the bounds check fails nothing changes at all; and processing a
non-terminator word never touches the `stable` map. -/
theorem recordHit_exact_cells (row column code : Nat) (mt : Nat → Nat) :
    (row < 928 → column + code < 960 →
      (∀ j, j ≤ code →
        recordHitLoop row column code mt (row * 960 + column + j)
          = (mt (row * 960 + column + j) + 1) % 65536) ∧
      (∀ idx, idx < row * 960 + column ∨ row * 960 + column + code < idx →
        recordHitLoop row column code mt idx = mt idx)) ∧
    (¬(row < 928 ∧ column + code < 960) → recordHitLoop row column code mt = mt) ∧
    (∀ (f : Int) (s : DState) (w : Nat), w ≠ tailer → (processWord f s w).maps = s.maps) := by
  refine ⟨?_, ?_, ?_⟩
  · intro hr hcc
    constructor
    · intro j hj
      rw [recordHitLoop_apply]
      have hp : (column + code < 960 ∧ row < 928) ∧
          row * 960 + column ≤ row * 960 + column + j ∧
          row * 960 + column + j < row * 960 + column + (code + 1) :=
        ⟨⟨hcc, hr⟩, Nat.le_add_right _ _, by omega⟩
      rw [if_pos hp]
    · intro idx hidx
      rw [recordHitLoop_apply]
      have hp : ¬((column + code < 960 ∧ row < 928) ∧
          row * 960 + column ≤ idx ∧ idx < row * 960 + column + (code + 1)) := by
        omega
      rw [if_neg hp]
  · intro h
    unfold recordHitLoop
    rw [if_neg (fun hh => h ⟨hh.2, hh.1⟩)]
  · intro f s w hw
    exact (processWord_not_tailer_invariants f s w hw).2.2.2.1

/-- Witness for C3: the hit `(row,column,code) = (1,2,3)` on the all-zero
grid increments cell `(1,2)`. -/
theorem recordHit_exact_cells_witness :
    recordHitLoop 1 2 3 (fun _ => 0) (1 * 960 + 2 + 0)
      = ((fun _ : Nat => 0) (1 * 960 + 2 + 0) + 1) % 65536 :=
  ((recordHit_exact_cells 1 2 3 (fun _ => 0)).1 (by decide) (by decide)).1 0 (by decide)

/-- C4: after a completed frame, the commit runs if and only if the
incremented persistent frame counter equals the caller-supplied threshold
`framadd`: then every grid cell of `stable` receives the corresponding cell
of `temp`, every grid cell of `temp` becomes 0 and the frame counter resets
to 0; otherwise (in particular for the `framadd - 1` preceding completed
frames) `stable` and `temp` are left entirely unchanged and the frame
counter just advances. -/
theorem commit_iff_threshold (f : Int) (s : DState) (h : s.tsign ≠ 0) :
    (s.fcounter + 1 = f →
      (processWord f s tailer).fcounter = 0 ∧
      (∀ idx, idx < 890880 →
        (processWord f s tailer).maps idx = s.maps_temp idx ∧
        (processWord f s tailer).maps_temp idx = 0)) ∧
    (s.fcounter + 1 ≠ f →
      (processWord f s tailer).fcounter = s.fcounter + 1 ∧
      (processWord f s tailer).maps = s.maps ∧
      (processWord f s tailer).maps_temp = s.maps_temp) := by
  constructor
  · intro hf
    rw [processWord_tailer_second_commit f s h hf]
    refine ⟨rfl, ?_⟩
    intro idx hidx
    constructor
    · dsimp only
      rw [(commitMaps_apply s.maps s.maps_temp idx).1, if_pos hidx]
    · dsimp only
      rw [(commitMaps_apply s.maps s.maps_temp idx).2, if_pos hidx]
  · intro hf
    rw [processWord_tailer_second_nocommit f s h hf]
    exact ⟨rfl, rfl, rfl⟩

/-- Witness for C4 at a concrete frame-ending state whose incremented frame
counter hits the threshold 1. -/
theorem commit_iff_threshold_witness :
    (processWord 1 { zState with tsign := 1 } tailer).fcounter = 0 :=
  (((commit_iff_threshold 1 { zState with tsign := 1 } (by decide)).1 (by decide)).1)


/-- C2 counterexample: process the three words `u = 0x1014` (row word for
row 5), `v = 0x101C` (row word for row 7), `w = 0` in-frame with the word
counter past the skip threshold.  When `w` is processed, the word two
positions behind it is `u`, so the claim predicts `row = 5`; the code
decodes the word one position behind (`v`) and yields `row = 7`. -/
theorem coordinate_decode_lag_two_refuted :
    (runWords 99 { zState with counter := 10 } [0x1014, 0x101C, 0]).row = 7 ∧
    (0x1014 >>> 2) &&& 0x03ff = 5 ∧ (7 : Nat) ≠ 5 := by
  refine ⟨by decide, by decide, by decide⟩

/-- C2 (amended): for every assembled non-terminator word processed while
the in-frame word counter (after counting this word, as the source checks
post-increment) exceeds 6, `data_cal` interprets the word ONE position
behind the current one — at decode time `pdata_pre2` holds the immediately
preceding word, because the history is shifted before the decode: if bit
`0x1000` of that word is set the pending row becomes `(word >> 2) & 0x3FF`
and no hit is recorded; otherwise `column = (word >> 2) & 0x3FF` and
`code = word & 0x3` are decoded and a hit-record attempt is made.  Words
processed while the counter is 6 or less are never interpreted as
coordinates.  The first conjunct ties `pdata_pre1` to the previously
processed word. -/
theorem coordinate_decode_lag_one (f : Int) (s : DState) (w : Nat) :
    (processWord f s w).pdata_pre1 = w ∧
    (w ≠ tailer → ¬6 < s.counter + 1 →
      (processWord f s w).row = s.row ∧ (processWord f s w).column = s.column ∧
      (processWord f s w).code = s.code ∧
      (processWord f s w).maps_temp = s.maps_temp) ∧
    (w ≠ tailer → 6 < s.counter + 1 →
      (s.pdata_pre1 &&& 0x1000 ≠ 0 →
        (processWord f s w).row = (s.pdata_pre1 >>> 2) &&& 0x03ff ∧
        (processWord f s w).maps_temp = s.maps_temp) ∧
      (s.pdata_pre1 &&& 0x1000 = 0 →
        (processWord f s w).column = (s.pdata_pre1 >>> 2) &&& 0x03ff ∧
        (processWord f s w).code = s.pdata_pre1 &&& 0x0003 ∧
        (processWord f s w).maps_temp
          = recordHitLoop s.row ((s.pdata_pre1 >>> 2) &&& 0x03ff)
              (s.pdata_pre1 &&& 0x0003) s.maps_temp)) := by
  refine ⟨processWord_pdata_pre1 f s w, ?_, ?_⟩
  · intro hw hc
    rw [processWord_nodecode f s w hw hc]
    exact ⟨rfl, rfl, rfl, rfl⟩
  · intro hw hc
    constructor
    · intro hr
      rw [processWord_decode_row f s w hw hc hr]
      exact ⟨rfl, rfl⟩
    · intro hr0
      rw [processWord_decode_col f s w hw hc (fun hh => hh hr0)]
      exact ⟨rfl, rfl, rfl⟩

/-- Witness for the amended C2: decoding the pending previous row word
`0x1014` while processing the non-terminator word 0 sets row 5. -/
theorem coordinate_decode_lag_one_witness :
    (processWord 99 { zState with counter := 10, pdata_pre1 := 0x1014 } 0).row
      = (0x1014 >>> 2) &&& 0x03ff :=
  (((coordinate_decode_lag_one 99
      { zState with counter := 10, pdata_pre1 := 0x1014 } 0).2.2
    (by decide) (by decide)).1 (by decide)).1

/-- C7: while in-frame, the word assembler consumes bytes in alternating
phases.  A byte seen in phase `odd = 1` is stored as the pending low byte
(no word is produced, no counter moves); the next byte completes exactly
one word `low ||| (high <<< 8)`, shifts the two-deep word history
(`pdata_pre2` takes the old `pdata_pre1`, `pdata_pre1` takes the new word),
flips the phase back and increments the in-frame word counter by 1 (the
counter reset of a frame-ending second terminator is C1's subject and is
excluded by the last guard). -/
theorem word_assembler_pairs (f : Int) (buf : Nat → Nat) (dn : Nat)
    (s : DState) (i : Nat) (hin : s.counter ≠ 0) :
    (s.odd = 1 →
      data_cal_step f buf dn s i =
        { s with w4 := s.w3, w3 := s.w2, w2 := s.w1, w1 := buf i % 256,
                 pdata := buf i % 256, odd := 0 }) ∧
    (s.odd ≠ 1 → s.pdata < 256 →
      (data_cal_step f buf dn s i).pdata_pre1
          = s.pdata ||| ((buf i % 256) <<< 8) ∧
      (data_cal_step f buf dn s i).pdata_pre2 = s.pdata_pre1 ∧
      (data_cal_step f buf dn s i).odd = 1 ∧
      (¬(s.pdata ||| ((buf i % 256) <<< 8) = tailer ∧ s.tsign ≠ 0) →
        (data_cal_step f buf dn s i).counter = s.counter + 1)) := by
  have hword : ∀ hpd : s.pdata < 256,
      (s.pdata + ((buf i % 256) <<< 8)) % 65536
        = s.pdata ||| ((buf i % 256) <<< 8) := by
    intro hpd
    have hb : buf i % 256 < 256 := Nat.mod_lt _ (by omega)
    have h1 : (buf i % 256) <<< 8 = (buf i % 256) * 256 := by
      rw [Nat.shiftLeft_eq]
    have h2 : s.pdata ||| ((buf i % 256) <<< 8)
        = (buf i % 256) * 2 ^ 8 + s.pdata := by
      rw [Nat.lor_comm, lor_low _ _ 8 (by omega)]
    rw [h2, h1]
    have : s.pdata + buf i % 256 * 256 < 65536 := by omega
    rw [Nat.mod_eq_of_lt (by omega)]
    omega
  constructor
  · intro hodd
    unfold data_cal_step
    dsimp only
    rw [if_pos hin, if_pos hodd]
  · intro hodd hpd
    unfold data_cal_step
    dsimp only
    rw [if_pos hin, if_neg hodd]
    refine ⟨?_, ?_, ?_, ?_⟩
    · rw [processWord_pdata_pre1]
      exact hword hpd
    · exact processWord_pdata_pre2 f _ _
    · exact processWord_odd f _ _
    · intro hng
      rw [processWord_counter f _ _ ?_]
      rw [hword hpd]
      exact hng
  
/-- Witness for C7: a low byte then a high byte assemble one word from the
all-zero in-frame state. -/
theorem word_assembler_pairs_witness :
    data_cal_step 99 (fun _ => 7) 20000 { zState with counter := 1, odd := 1 } 0 =
      { ({ zState with counter := 1, odd := 1 } : DState) with
        w4 := 0, w3 := 0, w2 := 0, w1 := 7, pdata := 7, odd := 0 } :=
  (word_assembler_pairs 99 (fun _ => 7) 20000
    { zState with counter := 1, odd := 1 } 0 (by decide)).1 (by decide)


/-- The advisory printout is raised by `extractTelemetry` exactly when the
decoded channel identifier is 3 and the just-stored channel value (the
`MimosaI` slot, `i2c_data[6]`) exceeds 68. -/
theorem extractTelemetry_advisory_iff (s : DState) (hadv : s.advisory = false) :
    ((extractTelemetry s).advisory = true ↔
      ((extractTelemetry s).i2c_data 7 = 3 ∧ 68 < (extractTelemetry s).i2c_data 6)) := by
  unfold extractTelemetry
  dsimp only
  have hch : cint_shr (cint_and (s.i2c_data_temp 6) 0x0c) 2
      = ((((s.i2c_data_temp 6 % 4294967296).toNat &&& 0x0c) / 4 : Nat) : Int) := by
    show Int.fdiv ((((s.i2c_data_temp 6 % 4294967296).toNat &&& 0x0c : Nat) : Int))
        ((2 : Int) ^ 2) = _
    rw [show ((2 : Int) ^ 2) = ((4 : Nat) : Int) by norm_num]
    exact (Int.ofNat_fdiv _ 4).symm
  have hvle : ((s.i2c_data_temp 6 % 4294967296).toNat &&& 0x0c) ≤ 12 := Nat.and_le_right
  have hq4 : ((s.i2c_data_temp 6 % 4294967296).toNat &&& 0x0c) / 4 ≤ 3 := by omega
  rw [hch]
  generalize hq : ((s.i2c_data_temp 6 % 4294967296).toNat &&& 0x0c) / 4 = q at hq4 ⊢
  interval_cases q
  · rw [if_pos (by decide)]
    simp [Function.update, hadv, intToU32]
  · rw [if_neg (by decide), if_pos (by decide)]
    simp [Function.update, hadv, intToU32]
  · rw [if_neg (by decide), if_neg (by decide), if_pos (by decide)]
    simp [Function.update, hadv, intToU32]
  · rw [if_neg (by decide), if_neg (by decide), if_neg (by decide), if_pos (by decide)]
    simp [Function.update, hadv, intToU32]

/-- C8: the overcurrent advisory is raised at a frame completion if and only
if the staged channel identifier is 3 and the extracted channel value
(stored in the `MimosaI` slot `i2c_data[6]`) is strictly greater than 68;
and the advisory feeds nothing back into decoding — the decoder state with
the advisory output blanked never depends on the advisory flag, so raising
it cannot abort or alter the decoding of the rest of the buffer. -/
theorem overcurrent_advisory (f : Int) (s : DState) (w : Nat) :
    eraseAdv (processWord f s w) = eraseAdv (processWord f (eraseAdv s) w) ∧
    (s.tsign ≠ 0 → s.advisory = false →
      ((processWord f s tailer).advisory = true ↔
        ((processWord f s tailer).i2c_data 7 = 3 ∧
         68 < (processWord f s tailer).i2c_data 6))) := by
  constructor
  · dsimp only [processWord, eraseAdv, extractTelemetry]
    split_ifs <;> rfl
  · intro ht hadv
    by_cases hf : s.fcounter + 1 = f
    · rw [processWord_tailer_second_commit f s ht hf]
      dsimp only
      exact extractTelemetry_advisory_iff _ hadv
    · rw [processWord_tailer_second_nocommit f s ht hf]
      exact extractTelemetry_advisory_iff _ hadv

/-- A frame-ending decoder state whose staged telemetry block selects
channel 3 (`b[6] = 0x0C`) with channel value `b7`. -/
def chan3State (b7 : Int) : DState :=
  { zState with
    tsign := 1,
    i2c_data_temp := (fun k => if k.val = 6 then 12 else if k.val = 7 then b7 else 0) }

/-- Witness for C8: channel identifier 3 with channel value 70 raises the
advisory; value 60 does not. -/
theorem overcurrent_advisory_witness :
    (processWord 99 (chan3State 70) tailer).advisory = true ∧
    (processWord 99 (chan3State 60) tailer).advisory = false := by
  constructor
  · exact ((overcurrent_advisory 99 (chan3State 70) 0).2 (by decide) (by decide)).mpr
      (by decide)
  · have h2 := (overcurrent_advisory 99 (chan3State 60) 0).2 (by decide) (by decide)
    cases hb : (processWord 99 (chan3State 60) tailer).advisory
    · rfl
    · exact absurd (h2.mp hb) (by decide)


/-- A frame-ending decoder state whose staged telemetry block is
`[0x00, 0x00, 0x80, 0x00, 0x00, 0x00, 0x00, 0x00]`, staged through the
(signed) `char` buffer exactly as the staging loop does: byte `0x80`
becomes `toSChar 0x80 = -128`. -/
def highByteState : DState :=
  { zState with
    tsign := 1,
    i2c_data_temp := (fun k => if k.val = 2 then toSChar 0x80 else 0) }

/-- C5 (refuted by the code): because `i2c_data_temp` is a signed `char`
array, the staged byte `b[2] = 0x80` is sign-extended on extraction, so the
stored frame counter at frame completion is `0 + (-128) * 256 + 0 = -32768`
converted to `unsigned int`, i.e. `4294934528` — not the `32768` that the
claim's formula `((b[1] & 0x0F) << 16) | (b[2] << 8) | b[3]` yields on
unsigned byte values (second conjunct). -/
theorem telemetry_sign_extension_bug :
    toSChar 0x80 = -128 ∧
    (processWord 99 highByteState tailer).i2c_data 0 = 4294934528 ∧
    ((0x00 &&& 0x0f : Nat) <<< 16) ||| ((0x80 : Nat) <<< 8) ||| (0x00 : Nat) = 32768 ∧
    (4294934528 : Nat) ≠ 32768 := by
  exact ⟨by decide, by decide, by decide, by decide⟩

/-- The 80000-byte buffer that is all zero except for a synchronization
marker in its last four bytes (indices 79996..79999). -/
def oobBufA : Nat → Nat := fun j => if 79996 ≤ j ∧ j ≤ 79999 then 0xaa else 0

/-- The same buffer, except that the out-of-range position 80000 (one past
the end) holds 1 instead of 0. -/
def oobBufB : Nat → Nat := fun j => if j = 80000 then 1 else oobBufA j

/-- The decoder state just before processing byte index 79999 of `oobBufA`:
still seeking sync, with the last three bytes 0xAA already in the rolling
byte history. -/
def syncTailState : DState := { zState with w1 := 0xaa, w2 := 0xaa, w3 := 0xaa }

/-- C6 (refuted by the code): the staging guard checks `i + m < datanum*4`
but reads `buf[i + m + 1]`.  The two buffers agree at every in-range index
(first conjunct, stated over `j % 80000` which ranges over exactly the valid
indices), the marker is detected at `i = 79999` (third conjunct), the
staging loop reads index `80000 = datanum*4` (second conjunct), and the
staged telemetry after the step differs between the two buffers (last
conjunct) — so the staging read depends on a byte one past the end of the
buffer instead of staging fewer bytes. -/
theorem staging_reads_past_end :
    (fun j => oobBufA (j % 80000)) = (fun j => oobBufB (j % 80000)) ∧
    20000 * 4 ∈ stageReadIndices 20000 79999 ∧
    (data_cal_step 99 oobBufA 20000 syncTailState 79999).counter = 1 ∧
    (data_cal_step 99 oobBufA 20000 syncTailState 79999).i2c_data_temp 0
      ≠ (data_cal_step 99 oobBufB 20000 syncTailState 79999).i2c_data_temp 0 := by
  refine ⟨?_, by decide, by decide, by decide⟩
  funext j
  have hlt : j % 80000 < 80000 := Nat.mod_lt _ (by omega)
  show oobBufA (j % 80000) = oobBufB (j % 80000)
  unfold oobBufB
  rw [if_neg (by omega)]

/-- C9: for every 32-bit count `n`, `cmd_read_datafifo` writes exactly two
command words — the first carries marker `0x001a` in its high halfword and
the high 16 bits of `n` in its low halfword, the second carries `0x0019`
and the low 16 bits of `n` — converts both to network byte order, and
returns the byte length 8. -/
theorem cmd_read_datafifo_spec (n : Nat) (hn : n < 4294967296) :
    (cmd_read_datafifo n).2 = 8 ∧
    (cmd_read_datafifo n).1
      = [htonl (0x001a * 65536 + n / 65536), htonl (0x0019 * 65536 + n % 65536)] ∧
    (0x001a * 65536 + n / 65536) / 65536 = 0x001a ∧
    (0x001a * 65536 + n / 65536) % 65536 = n / 65536 ∧
    (0x0019 * 65536 + n % 65536) / 65536 = 0x0019 ∧
    (0x0019 * 65536 + n % 65536) % 65536 = n % 65536 := by
  have hpow : (2 : Nat) ^ 16 = 65536 := by norm_num
  have hmask : ∀ x : Nat, (0x0000ffff &&& x) = x % 65536 := by
    intro x
    rw [Nat.and_comm, show (0x0000ffff : Nat) = 2 ^ 16 - 1 by norm_num,
        Nat.and_pow_two_sub_one_eq_mod, hpow]
  have e0 : ((0xffff0000 &&& (0x001a <<< 16) : Nat) ||| (0x0000ffff &&& (n >>> 16)))
      = 0x001a * 65536 + n / 65536 := by
    rw [show (0xffff0000 &&& (0x001a <<< 16) : Nat) = 0x001a <<< 16 by decide,
        hmask (n >>> 16), Nat.shiftRight_eq_div_pow, hpow,
        Nat.mod_eq_of_lt (by omega : n / 65536 < 65536),
        lor_low 0x001a (n / 65536) 16 (by rw [hpow]; omega), hpow]
  have e1 : ((0xffff0000 &&& (0x0019 <<< 16) : Nat) ||| (0x0000ffff &&& n))
      = 0x0019 * 65536 + n % 65536 := by
    rw [show (0xffff0000 &&& (0x0019 <<< 16) : Nat) = 0x0019 <<< 16 by decide,
        hmask n, lor_low 0x0019 (n % 65536) 16 (by rw [hpow]; omega), hpow]
  unfold cmd_read_datafifo conv32network_endian
  dsimp only
  rw [e0, e1]
  exact ⟨rfl, rfl, by omega, by omega, by omega, by omega⟩

/-- Witness for C9 at the 32-bit count `0x12345678`. -/
theorem cmd_read_datafifo_spec_witness :
    (cmd_read_datafifo 305419896).2 = 8 :=
  (cmd_read_datafifo_spec 305419896 (by norm_num)).1

/-- The 40-byte prefix of a buffer holding two frames: a sync marker, five
zero words, the row word `0x1014` (row 5), a zero word and a doubled
terminator; then a second sync marker, five zero words, the column word
`0x000C` (column 3, code 0) and a zero word — and no row word at all in the
second frame. -/
def c10bytes : List Nat :=
  [0xaa, 0xaa, 0xaa, 0xaa,
   0, 0, 0, 0, 0, 0, 0, 0, 0, 0,
   0x14, 0x10, 0, 0, 0x78, 0x56, 0x78, 0x56,
   0xaa, 0xaa, 0xaa, 0xaa,
   0, 0, 0, 0, 0, 0, 0, 0, 0, 0,
   0x0c, 0x00, 0x00, 0x00]

/-- The two-frame buffer as a function (zero beyond the prefix). -/
def c10buf : Nat → Nat := fun j => c10bytes.getD j 0

set_option maxRecDepth 8000 in
/-- C10: the pending row starts at 0 in `data_cal`'s initial state, is not
reset by terminator words (provisional or frame-ending, commit or not) nor
by the sync-seeking branch, and consequently a column+code word decoded in
a frame before any row word of that frame records its hit on the row left
over from the previous frame of the same buffer: running the two-frame
buffer `c10buf`, whose second frame contains no row word, increments
`temp[5][3]` using row 5 set during the first frame. -/
theorem pending_row_not_reset :
    (∀ (m mt : Nat → Nat) (d : Fin 8 → Nat) (fc : Int),
      (initState m mt d fc).row = 0) ∧
    (∀ (f : Int) (s : DState), (processWord f s tailer).row = s.row) ∧
    (∀ (f : Int) (buf : Nat → Nat) (dn : Nat) (s : DState) (i : Nat),
      s.counter = 0 → (data_cal_step f buf dn s i).row = s.row) ∧
    ((List.range 40).foldl (data_cal_step 99 c10buf 20000) zState).maps_temp
      (5 * 960 + 3) = 1 := by
  refine ⟨fun _ _ _ _ => rfl, ?_, ?_, by decide⟩
  · intro f s
    by_cases ht : s.tsign = 0
    · rw [processWord_tailer_first f s ht]
    · by_cases hf : s.fcounter + 1 = f
      · rw [processWord_tailer_second_commit f s ht hf]
        rfl
      · rw [processWord_tailer_second_nocommit f s ht hf]
        rfl
  · intro f buf dn s i h
    unfold data_cal_step
    dsimp only
    rw [if_neg (fun hh => hh h)]
    dsimp only
    split_ifs <;> rfl

/-- Witness for C10: the sync-seeking step preserves the pending row. -/
theorem pending_row_not_reset_witness :
    (data_cal_step 99 (fun _ => 0) 20000 zState 0).row = zState.row :=
  pending_row_not_reset.2.2.1 99 (fun _ => 0) 20000 zState 0 (by decide)

end MMCM
